import Mathlib

/-!
Shallow embedding of the `pinterval` scheduling engine (`src/interval.ts`), the
duration strategy `duration.steps` (`src/index.js`) and the combinator helpers
(`src/helpers.ts`), together with proofs settling the specification claims.

The engine is modelled as an explicit event-loop system: the engine fields
(`__counter`, `__isRunning`) plus the list of outstanding host continuations
(armed timers and pending promise settlements).  JavaScript functions supplied
by the user are modelled as pure functions from the tick counter and a closure
state to a `CallResult`, which says whether the call returned a plain value,
returned a promise (with its eventual settlement), or threw.
-/

namespace Pinterval

/-- Start modes of the interval (src/interval.ts line 16). -/
inductive StartMode where
  | immediate
  | delayed
deriving DecidableEq, Repr

/-- JavaScript values as far as the engine inspects them: the engine only ever
compares results against the boolean literals (`out !== false`, `out === true`);
`undefined` and every non-boolean value behave alike, so they are collapsed. -/
inductive JsVal where
  | bool (b : Bool)
  | undef
  | other
deriving DecidableEq, Repr

/-- Settlement of a JavaScript promise: fulfilled with a value or rejected with
an error (errors are modelled by their message string). -/
inductive Settlement where
  | resolve (v : JsVal)
  | reject (e : String)
deriving DecidableEq, Repr

/-- Result of synchronously invoking a user-supplied JavaScript function whose
closure state has type `σ`: a plain returned value, a returned promise whose
eventual settlement is recorded, or a synchronous throw.  The `σ` component is
the updated closure state. -/
inductive CallResult (σ : Type) where
  | ret (v : JsVal) (u : σ)
  | promise (st : Settlement) (u : σ)
  | thrown (e : String) (u : σ)

/-- Duration parameter: a fixed number of milliseconds or a duration function
of the counter (src/interval.ts line 15). -/
inductive Duration where
  | fixed (n : Nat)
  | fn (f : Nat → Nat)

/-- Evaluation of a duration, as in
`typeof this.__duration !== 'function' ? this.__duration : this.__duration(c)`
(src/interval.ts line 142). -/
def evalDuration : Duration → Nat → Nat
  | .fixed n, _ => n
  | .fn f, c => f c

/-- Engine configuration: the fields stored by the `Interval` constructor
(src/interval.ts lines 85-88). -/
structure Config (σ : Type) where
  func : Nat → σ → CallResult σ
  time : Duration
  startMode : StartMode
  onError : Option (String → σ → CallResult σ)

/-- Start-mode resolution of the `Interval` constructor:
`this.__startMode = params.start || 'delayed'` (src/interval.ts line 88). -/
def mkStartMode (o : Option StartMode) : StartMode := o.getD .delayed

/-- Outstanding host continuations: a `setTimeout` timer armed for
`Interval.__call`, a pending settlement of the promise returned by `func`, or
a pending settlement of the promise returned by `onError`. -/
inductive Task where
  | timer (delay : Nat)
  | settleWork (st : Settlement)
  | settleHandler (st : Settlement)
deriving DecidableEq, Repr

/-- Observable system state: the engine fields (`__counter`, `__isRunning`),
the outstanding tasks of the host event loop, the user closure state, the log
of counter values with which `func` has actually been invoked, and errors that
escaped to the host unhandled. -/
structure Sys (σ : Type) where
  counter : Nat
  isRunning : Bool
  tasks : List Task
  user : σ
  invocations : List Nat
  unhandled : List String

/-- Error message thrown by `start()` on a running instance (src/interval.ts line 3). -/
def ERR_START : String := "Interval is already running"

/-- Error message thrown by `stop()` on a stopped instance (src/interval.ts line 4). -/
def ERR_STOP : String := "Interval is already stoped"

variable {σ : Type}

/-- Method `Interval.stop` (src/interval.ts lines 123-131): throws when already
stopped, otherwise clears the running flag.  Pending tasks are not cancelled. -/
def stopFn (s : Sys σ) : Except String (Sys σ) :=
  if s.isRunning then .ok { s with isRunning := false } else .error ERR_STOP

/-- Effect of a `this.stop()` call made from a host callback where a throw
would escape to the host: the throw (possible only when already stopped) is
recorded in `unhandled`. -/
def stopOrRecord (s : Sys σ) : Sys σ :=
  match stopFn s with
  | .ok s' => s'
  | .error e' => { s with unhandled := s.unhandled ++ [e'] }

/-- Delay computed by `Interval.__enqueue` for tick `c` (src/interval.ts
lines 139-143): zero unless the start mode is delayed or this is not the
first tick. -/
def delayAt (cfg : Config σ) (c : Nat) : Nat :=
  if cfg.startMode = .delayed ∨ c > 1 then evalDuration cfg.time c else 0

/-- Method `Interval.__enqueue` (src/interval.ts lines 133-146): when running,
increment the counter and arm a timer for `__call` after the computed delay;
otherwise do nothing. -/
def enqueue (cfg : Config σ) (s : Sys σ) : Sys σ :=
  if s.isRunning then
    { s with counter := s.counter + 1,
             tasks := s.tasks ++ [Task.timer (delayAt cfg (s.counter + 1))] }
  else s

/-- Method `Interval.__handleError` (src/interval.ts lines 190-227).  When the
engine is no longer running the error is discarded.  Without a handler the
engine stops (the error is not re-thrown).  With a handler, a synchronous
result exactly `true` re-arms, any other synchronous result stops, a returned
promise parks a `settleHandler` task, and a synchronous throw out of the
handler escapes to the host unhandled without touching the engine flags. -/
def handleError (cfg : Config σ) (e : String) (s : Sys σ) : Sys σ :=
  if s.isRunning then
    match cfg.onError with
    | none => stopOrRecord s
    | some h =>
        match h e s.user with
        | .ret v u =>
            if v = .bool true then enqueue cfg { s with user := u }
            else stopOrRecord { s with user := u }
        | .promise st u => { s with user := u, tasks := s.tasks ++ [Task.settleHandler st] }
        | .thrown e' u => { s with user := u, unhandled := s.unhandled ++ [e'] }
  else s

/-- Interpretation of a successful work result (src/interval.ts lines 158-179):
any value other than the literal `false` re-arms via `__enqueue`; `false`
stops.  A throw from the internal `stop()` call is routed to `__handleError`
by the surrounding try/catch (sync path) or by the attached promise `.catch`
(async path). -/
def interpretWorkResult (cfg : Config σ) (v : JsVal) (s : Sys σ) : Sys σ :=
  if v = .bool false then
    match stopFn s with
    | .ok s' => s'
    | .error e => handleError cfg e s
  else enqueue cfg s

/-- Interpretation of the error handler's asynchronously resolved result
(src/interval.ts lines 214-226): exactly `true` re-arms; anything else stops.
A throw from `stop()` inside the `.then` callback lands in the `.catch`
callback, whose own `stop()` call is modelled by `stopOrRecord`. -/
def interpretHandlerResult (cfg : Config σ) (v : JsVal) (s : Sys σ) : Sys σ :=
  if v = .bool true then enqueue cfg s
  else
    match stopFn s with
    | .ok s' => s'
    | .error _ => stopOrRecord s

/-- Body of `Interval.__call` once the liveness check has passed
(src/interval.ts lines 153-187): record the invocation, call `func` with the
current counter, then interpret a synchronous result immediately, park the
settlement wait for a returned promise, or route a synchronous throw to
`__handleError`. -/
def callFunc (cfg : Config σ) (s : Sys σ) : Sys σ :=
  let s0 := { s with invocations := s.invocations ++ [s.counter] }
  match cfg.func s.counter s.user with
  | .ret v u => interpretWorkResult cfg v { s0 with user := u }
  | .promise st u => { s0 with user := u, tasks := s0.tasks ++ [Task.settleWork st] }
  | .thrown e u => handleError cfg e { s0 with user := u }

/-- Firing one outstanding host continuation (the fired task has already been
removed from `s.tasks`).  A timer runs `Interval.__call`, whose first action is
the liveness check (src/interval.ts lines 148-151).  Work-promise settlements
run the `.then`/`.catch` callbacks of lines 170-184; handler-promise
settlements run those of lines 214-226. -/
def fire (cfg : Config σ) (s : Sys σ) : Task → Sys σ
  | .timer _ => if s.isRunning then callFunc cfg s else s
  | .settleWork (.resolve v) => interpretWorkResult cfg v s
  | .settleWork (.reject e) => handleError cfg e s
  | .settleHandler (.resolve v) => interpretHandlerResult cfg v s
  | .settleHandler (.reject _) => stopOrRecord s

/-- Method `Interval.start` (src/interval.ts lines 106-116): throws when
already running, otherwise resets the counter, sets the running flag and
enqueues the first tick. -/
def startFn (cfg : Config σ) (s : Sys σ) : Except String (Sys σ) :=
  if s.isRunning then .error ERR_START
  else .ok (enqueue cfg { s with counter := 0, isRunning := true })

/-- Freshly constructed engine around user state `u`
(src/interval.ts lines 89-90). -/
def initSys (u : σ) : Sys σ :=
  { counter := 0, isRunning := false, tasks := [], user := u,
    invocations := [], unhandled := [] }

/-- State immediately after a successful `start()` on a fresh instance. -/
def startedState (cfg : Config σ) (u : σ) : Sys σ :=
  enqueue cfg { initSys u with isRunning := true }

/-- One event-loop step: the host picks any outstanding continuation and
fires it. -/
inductive Step (cfg : Config σ) : Sys σ → Sys σ → Prop where
  | fireTask (s : Sys σ) (t : Task) (l1 l2 : List Task)
      (h : s.tasks = l1 ++ t :: l2) :
      Step cfg s (fire cfg { s with tasks := l1 ++ l2 } t)

/-- States reachable by the event loop from a freshly started engine, with no
external `start`/`stop` calls in between. -/
def Reach (cfg : Config σ) (u : σ) (s : Sys σ) : Prop :=
  Relation.ReflTransGen (Step cfg) (startedState cfg u) s

/-- Deterministic executable run: fire the oldest outstanding continuation, at
most `fuel` times. -/
def runFuel (cfg : Config σ) : Nat → Sys σ → Sys σ
  | 0, s => s
  | n + 1, s =>
      match s.tasks with
      | [] => s
      | t :: rest => runFuel cfg n (fire cfg { s with tasks := rest } t)

/-- Work function of the C2 scenario: returns `false` on the Nth invocation and
`true` otherwise. -/
def boolFunc (N : Nat) : Nat → Unit → CallResult Unit :=
  fun c u => .ret (if c = N then .bool false else .bool true) u

/-- Engine configuration of the C2 scenario: `boolFunc`, no error handler. -/
def boolCfg (N : Nat) (time : Duration) (sm : StartMode) : Config Unit :=
  { func := boolFunc N, time := time, startMode := sm, onError := none }

/-- State of the C2 scenario after `k` completed ticks: tick `k + 1` is armed. -/
def syncState (N : Nat) (time : Duration) (sm : StartMode) (k : Nat) : Sys Unit :=
  { counter := k + 1, isRunning := true,
    tasks := [Task.timer (delayAt (boolCfg N time sm) (k + 1))],
    user := (), invocations := List.range' 1 k, unhandled := [] }

/-- Final state of the C2 scenario: `N` invocations happened, engine stopped. -/
def syncFinal (N : Nat) : Sys Unit :=
  { counter := N, isRunning := false, tasks := [], user := (),
    invocations := List.range' 1 N, unhandled := [] }

/-- Concrete configuration used to exhibit reachable states: a work function
that always returns `true`. -/
def demoCfg : Config Unit :=
  { func := fun _ u => .ret (.bool true) u, time := .fixed 5,
    startMode := .immediate, onError := none }

/-- Configuration whose work function always throws, with no error handler. -/
def throwCfg : Config Unit :=
  { func := fun _ u => .thrown "boom" u, time := .fixed 100,
    startMode := .delayed, onError := none }

/-- Configuration whose work function returns a rejecting promise, with no
error handler. -/
def rejectCfg : Config Unit :=
  { func := fun _ u => .promise (.reject "boom") u, time := .fixed 100,
    startMode := .delayed, onError := none }

/-- Configuration whose work function throws and whose synchronous error
handler itself throws. -/
def handlerThrowCfg : Config Unit :=
  { func := fun _ u => .thrown "boom" u, time := .fixed 100,
    startMode := .delayed,
    onError := some (fun _ u => .thrown "handler boom" u) }

/-- Configuration whose work function throws and whose asynchronous error
handler returns a rejecting promise. -/
def handlerRejectCfg : Config Unit :=
  { func := fun _ u => .thrown "boom" u, time := .fixed 100,
    startMode := .delayed,
    onError := some (fun _ u => .promise (.reject "handler boom") u) }

/-- Threshold entry of `duration.steps` (src/index.js lines 218-226). -/
structure StepEntry where
  threshold : Nat
  duration : Nat
deriving DecidableEq, Repr

/-- Stable descending sort by threshold, as performed by
`[...durations].sort((a, b) => b.threshold - a.threshold)` (src/index.js
line 220; JavaScript `Array.prototype.sort` is stable, which `mergeSort`
models exactly). -/
def sortSteps (durations : List StepEntry) : List StepEntry :=
  durations.mergeSort (fun a b => decide (b.threshold ≤ a.threshold))

/-- Function `duration.steps` (src/index.js lines 218-226): find the first
entry of the descending-sorted list whose threshold is ≤ the counter, falling
back to the first-listed entry's duration.  The empty-list case (a runtime
`TypeError` in the JavaScript source when computing `durations[0].duration`)
is mapped to 0 and is outside every claim, which all assume a non-empty
list. -/
def steps (durations : List StepEntry) : Nat → Nat :=
  fun counter =>
    match (sortSteps durations).find? (fun st => decide (st.threshold ≤ counter)) with
    | some st => st.duration
    | none => (durations.head?.map StepEntry.duration).getD 0

/-- First-settlement-wins semantics of a JavaScript promise executor's
`resolve`/`reject` pair. -/
def settleOnce {α : Type} (o : Option α) (x : α) : Option α :=
  match o with
  | some y => some y
  | none => some x

/-- Closure state of the `retry` helper: the counters at which the predicate
has been invoked, and the settlement of the outer promise. -/
structure RetrySt (T : Type) where
  calls : List Nat
  result : Option (Except String T)

/-- Work function built by `retry` (src/helpers.ts lines 152-168): past the
attempt limit the returned promise rejects with the attempt-limit error;
otherwise the predicate is consulted, `undefined` continues polling, a defined
value resolves the outer promise and stops. -/
def retryFunc {T : Type} (pred : Nat → Option T) (attempts : Nat) :
    Nat → RetrySt T → CallResult (RetrySt T) :=
  fun counter u =>
    if counter > attempts then .promise (.reject "Attempt limit exceeded") u
    else
      match pred counter with
      | none => .promise (.resolve (.bool true)) { u with calls := u.calls ++ [counter] }
      | some v => .promise (.resolve (.bool false))
          { calls := u.calls ++ [counter], result := settleOnce u.result (.ok v) }

/-- Engine configuration built by `retry` (src/helpers.ts lines 148-170):
the error handler is the outer promise's `reject`. -/
def retryCfg {T : Type} (pred : Nat → Option T) (attempts : Nat) (time : Duration)
    (start : StartMode := .immediate) : Config (RetrySt T) :=
  { func := retryFunc pred attempts, time := time,
    startMode := mkStartMode (some start),
    onError := some (fun e u => .ret .undef { u with result := settleOnce u.result (.error e) }) }

/-- State of a `retry` run after `k` unsuccessful ticks: tick `k + 1` armed. -/
def retrySt {T : Type} (pred : Nat → Option T) (attempts : Nat) (time : Duration)
    (sm : StartMode) (k : Nat) : Sys (RetrySt T) :=
  { counter := k + 1, isRunning := true,
    tasks := [Task.timer (delayAt (retryCfg pred attempts time sm) (k + 1))],
    user := { calls := List.range' 1 k, result := none },
    invocations := List.range' 1 k, unhandled := [] }

/-- Final state of a `retry` run that exhausted its attempts. -/
def retryFailFinal (T : Type) (attempts : Nat) : Sys (RetrySt T) :=
  { counter := attempts + 1, isRunning := false, tasks := [],
    user := { calls := List.range' 1 attempts,
              result := some (.error "Attempt limit exceeded") },
    invocations := List.range' 1 (attempts + 1), unhandled := [] }

/-- Final state of a `retry` run whose predicate produced `v` at counter `m`. -/
def retrySuccFinal {T : Type} (m : Nat) (v : T) : Sys (RetrySt T) :=
  { counter := m, isRunning := false, tasks := [],
    user := { calls := List.range' 1 m, result := some (.ok v) },
    invocations := List.range' 1 m, unhandled := [] }

/-- Closure state of the `pipeline` helper: the remaining steps, the
accumulated value, how many steps have been applied, and the settlement of the
outer promise. -/
structure PipeSt (α : Type) where
  steps : List (α → α)
  data : α
  applied : Nat
  result : Option (Except String α)

/-- Work function built by `pipeline` (src/helpers.ts lines 211-223): each
tick shifts one step off the queue and feeds it the accumulated value; when
the queue is exhausted the outer promise resolves with the accumulated
value and the engine is told to stop. -/
def pipeFunc {α : Type} : Nat → PipeSt α → CallResult (PipeSt α) :=
  fun _ u =>
    match u.steps with
    | [] => .promise (.resolve (.bool false))
        { u with result := settleOnce u.result (.ok u.data) }
    | f :: rest => .promise (.resolve (.bool true))
        { u with steps := rest, data := f u.data, applied := u.applied + 1 }

/-- Engine configuration built by `pipeline` (src/helpers.ts lines 204-227). -/
def pipeCfg (α : Type) (time : Duration) (start : StartMode := .immediate) :
    Config (PipeSt α) :=
  { func := pipeFunc, time := time, startMode := mkStartMode (some start),
    onError := some (fun e u => .ret .undef { u with result := settleOnce u.result (.error e) }) }

/-- Argument of `pipeline`: either an actual array of steps, or any non-array
value (represented by its `typeof` string). -/
inductive PipelineArg (α : Type) where
  | arr (l : List (α → α))
  | notArr (ty : String)

/-- Observable outcome of a `pipeline` call that did return a promise: the
outer promise's settlement and how many steps were applied. -/
structure PipeOutcome (α : Type) where
  result : Option (Except String α)
  applied : Nat

/-- Function `pipeline` (src/helpers.ts lines 191-229).  A non-array argument
makes the call itself throw a `TypeError` (modelled by the outer
`Except.error`) — no promise is returned.  An empty array resolves immediately
with `undefined` and no engine is built.  Otherwise the engine drives the
steps; `2 * length + 2` event-loop turns are exactly enough to finish. -/
def pipeline (α : Type) (undef : α) (arg : PipelineArg α) (time : Duration)
    (start : StartMode := .immediate) : Except String (PipeOutcome α) :=
  match arg with
  | .notArr ty =>
      .error ("TypeError: Expected \"predicates\" to by an array, but got " ++ ty)
  | .arr [] => .ok { result := some (.ok undef), applied := 0 }
  | .arr preds =>
      let cfg := pipeCfg α time start
      let final := runFuel cfg (2 * preds.length + 2)
        (startedState cfg { steps := preds, data := undef, applied := 0, result := none })
      .ok { result := final.user.result, applied := final.user.applied }

/-- State of a `pipeline` run with `rem` steps remaining, `k` already applied
and accumulated value `d0`: tick `k + 1` is armed. -/
def pipeState (α : Type) (time : Duration) (sm : StartMode)
    (rem : List (α → α)) (k : Nat) (d0 : α) : Sys (PipeSt α) :=
  { counter := k + 1, isRunning := true,
    tasks := [Task.timer (delayAt (pipeCfg α time sm) (k + 1))],
    user := { steps := rem, data := d0, applied := k, result := none },
    invocations := List.range' 1 k, unhandled := [] }

/-- Final state of a `pipeline` run: all steps applied, outer promise resolved
with the accumulated value. -/
def pipeFinal (α : Type) (k : Nat) (d0 : α) : Sys (PipeSt α) :=
  { counter := k + 1, isRunning := false, tasks := [],
    user := { steps := [], data := d0, applied := k, result := some (.ok d0) },
    invocations := List.range' 1 (k + 1), unhandled := [] }

/-- Closure state of the `poll` helper. -/
structure PollSt where
  calls : Nat
  result : Option (Except String Unit)

/-- Work function built by `poll` (src/helpers.ts lines 23-33); the possibly
impure zero-argument predicate is modelled by indexing it with its own call
count. -/
def pollFunc (pred : Nat → Bool) : Nat → PollSt → CallResult PollSt :=
  fun _ u =>
    if pred (u.calls + 1) then .promise (.resolve (.bool true)) { u with calls := u.calls + 1 }
    else .promise (.resolve (.bool false))
      { calls := u.calls + 1, result := settleOnce u.result (.ok ()) }

/-- Engine configuration built by `poll` (src/helpers.ts lines 14-38). -/
def pollCfg (pred : Nat → Bool) (time : Duration)
    (start : StartMode := .immediate) : Config PollSt :=
  { func := pollFunc pred, time := time, startMode := mkStartMode (some start),
    onError := some (fun e u => .ret .undef { u with result := settleOnce u.result (.error e) }) }

/-- Closure state of the `until` helper. -/
structure UntilSt (T : Type) where
  calls : Nat
  result : Option (Except String T)

/-- Work function built by `until` (src/helpers.ts lines 61-73). -/
def untilFunc {T : Type} (pred : Nat → Option T) : Nat → UntilSt T → CallResult (UntilSt T) :=
  fun _ u =>
    match pred (u.calls + 1) with
    | none => .promise (.resolve (.bool true)) { u with calls := u.calls + 1 }
    | some v => .promise (.resolve (.bool false))
        { calls := u.calls + 1, result := settleOnce u.result (.ok v) }

/-- Engine configuration built by `until` (src/helpers.ts lines 52-78). -/
def untilCfg {T : Type} (pred : Nat → Option T) (time : Duration)
    (start : StartMode := .immediate) : Config (UntilSt T) :=
  { func := untilFunc pred, time := time, startMode := mkStartMode (some start),
    onError := some (fun e u => .ret .undef { u with result := settleOnce u.result (.error e) }) }

/-- Closure state of the `times` helper. -/
structure TimesSt where
  calls : List Nat
  result : Option (Except String Unit)

/-- Work function built by `times` (src/helpers.ts lines 111-121); the
side-effecting predicate is modelled by logging the counters it receives. -/
def timesFunc (amount : Nat) : Nat → TimesSt → CallResult TimesSt :=
  fun counter u =>
    if counter > amount then
      .promise (.resolve (.bool false)) { u with result := settleOnce u.result (.ok ()) }
    else .promise (.resolve (.bool true)) { u with calls := u.calls ++ [counter] }

/-- Engine configuration built by `times` (src/helpers.ts lines 97-126). -/
def timesCfg (amount : Nat) (time : Duration)
    (start : StartMode := .immediate) : Config TimesSt :=
  { func := timesFunc amount, time := time, startMode := mkStartMode (some start),
    onError := some (fun e u => .ret .undef { u with result := settleOnce u.result (.error e) }) }

/-- Event-loop invariant: the invocation log is exactly `1, 2, ..., k`, and
there is at most one outstanding continuation, whose kind determines the
engine counter (a pending timer will invoke tick `k + 1`; a pending settlement
belongs to the in-flight invocation `k`). -/
def Inv (s : Sys σ) : Prop :=
  s.invocations = List.range' 1 s.invocations.length ∧
  (s.tasks = [] ∨
    (∃ d, s.tasks = [Task.timer d] ∧ s.counter = s.invocations.length + 1) ∨
    (∃ st, s.tasks = [Task.settleWork st] ∧ s.counter = s.invocations.length) ∨
    (∃ st, s.tasks = [Task.settleHandler st] ∧ s.counter = s.invocations.length))

lemma range'_snoc (k : Nat) : List.range' 1 k ++ [k + 1] = List.range' 1 (k + 1) := by
  rw [List.range'_concat]
  simp [Nat.add_comm]

lemma stopOrRecord_counter (s : Sys σ) : (stopOrRecord s).counter = s.counter := by
  unfold stopOrRecord stopFn
  by_cases h : s.isRunning <;> simp [h]

lemma stopOrRecord_tasks (s : Sys σ) : (stopOrRecord s).tasks = s.tasks := by
  unfold stopOrRecord stopFn
  by_cases h : s.isRunning <;> simp [h]

lemma stopOrRecord_invocations (s : Sys σ) : (stopOrRecord s).invocations = s.invocations := by
  unfold stopOrRecord stopFn
  by_cases h : s.isRunning <;> simp [h]

lemma inv_stopOrRecord (s : Sys σ)
    (h1 : s.invocations = List.range' 1 s.invocations.length)
    (h2 : s.tasks = []) : Inv (stopOrRecord s) := by
  refine ⟨?_, Or.inl ?_⟩
  · rw [stopOrRecord_invocations]; exact h1
  · rw [stopOrRecord_tasks]; exact h2

lemma inv_enqueue (cfg : Config σ) (s : Sys σ)
    (h1 : s.invocations = List.range' 1 s.invocations.length)
    (h2 : s.tasks = [])
    (h3 : s.counter = s.invocations.length) : Inv (enqueue cfg s) := by
  unfold enqueue
  by_cases hr : s.isRunning = true
  · rw [if_pos hr]
    refine ⟨h1, Or.inr (Or.inl ⟨delayAt cfg (s.counter + 1), ?_, ?_⟩)⟩
    · simp [h2]
    · simp [h3]
  · rw [if_neg hr]
    exact ⟨h1, Or.inl h2⟩

lemma inv_handleError (cfg : Config σ) (e : String) (s : Sys σ)
    (h1 : s.invocations = List.range' 1 s.invocations.length)
    (h2 : s.tasks = [])
    (h3 : s.counter = s.invocations.length) : Inv (handleError cfg e s) := by
  unfold handleError
  split
  · split
    · exact inv_stopOrRecord s h1 h2
    · split
      · split
        · exact inv_enqueue cfg _ h1 h2 h3
        · exact inv_stopOrRecord _ h1 h2
      · rename_i st u heq
        exact ⟨h1, Or.inr (Or.inr (Or.inr ⟨st, by simp [h2], h3⟩))⟩
      · exact ⟨h1, Or.inl h2⟩
  · exact ⟨h1, Or.inl h2⟩

lemma inv_interpretWork (cfg : Config σ) (v : JsVal) (s : Sys σ)
    (h1 : s.invocations = List.range' 1 s.invocations.length)
    (h2 : s.tasks = [])
    (h3 : s.counter = s.invocations.length) : Inv (interpretWorkResult cfg v s) := by
  unfold interpretWorkResult stopFn
  by_cases hv : v = JsVal.bool false
  · rw [if_pos hv]
    by_cases hr : s.isRunning = true
    · rw [if_pos hr]
      exact ⟨h1, Or.inl h2⟩
    · rw [if_neg hr]
      exact inv_handleError cfg _ s h1 h2 h3
  · rw [if_neg hv]
    exact inv_enqueue cfg s h1 h2 h3

lemma inv_interpretHandler (cfg : Config σ) (v : JsVal) (s : Sys σ)
    (h1 : s.invocations = List.range' 1 s.invocations.length)
    (h2 : s.tasks = [])
    (h3 : s.counter = s.invocations.length) : Inv (interpretHandlerResult cfg v s) := by
  unfold interpretHandlerResult stopFn
  by_cases hv : v = JsVal.bool true
  · rw [if_pos hv]
    exact inv_enqueue cfg s h1 h2 h3
  · rw [if_neg hv]
    by_cases hr : s.isRunning = true
    · rw [if_pos hr]
      exact ⟨h1, Or.inl h2⟩
    · rw [if_neg hr]
      exact inv_stopOrRecord s h1 h2

lemma inv_callFunc (cfg : Config σ) (s : Sys σ)
    (h1 : s.invocations = List.range' 1 s.invocations.length)
    (h2 : s.tasks = [])
    (h3 : s.counter = s.invocations.length + 1) : Inv (callFunc cfg s) := by
  have hlog : s.invocations ++ [s.counter] =
      List.range' 1 (s.invocations ++ [s.counter]).length := by
    have hlen : (s.invocations ++ [s.counter]).length = s.invocations.length + 1 := by simp
    rw [hlen, ← range'_snoc, ← h1, h3]
  unfold callFunc
  rcases hres : cfg.func s.counter s.user with ⟨v, u⟩ | ⟨st, u⟩ | ⟨e, u⟩
  · exact inv_interpretWork cfg v _ hlog (by simp [h2]) (by simp [h3])
  · exact ⟨hlog, Or.inr (Or.inr (Or.inl ⟨st, by simp [h2], by simp [h3]⟩))⟩
  · exact inv_handleError cfg e _ hlog (by simp [h2]) (by simp [h3])

lemma singleton_decomp {α : Type} {x t : α} {l1 l2 : List α}
    (h : l1 ++ t :: l2 = [x]) : l1 = [] ∧ t = x ∧ l2 = [] := by
  cases l1 with
  | nil =>
      simp only [List.nil_append, List.cons.injEq] at h
      exact ⟨rfl, h.1, h.2⟩
  | cons a as =>
      exfalso
      have hlen := congrArg List.length h
      simp at hlen

lemma inv_step (cfg : Config σ) {s s' : Sys σ} (hs : Inv s) (h : Step cfg s s') :
    Inv s' := by
  rcases h with ⟨t, l1, l2, ht⟩
  obtain ⟨hlog, hcase⟩ := hs
  rcases hcase with hnil | ⟨d, hts, hc⟩ | ⟨st, hts, hc⟩ | ⟨st, hts, hc⟩
  · rw [hnil] at ht
    exact absurd ht.symm (by simp)
  · obtain ⟨hl1, htx, hl2⟩ := singleton_decomp (ht.symm.trans hts)
    subst hl1; subst hl2; subst htx
    show Inv (fire cfg { s with tasks := [] } (Task.timer d))
    unfold fire
    by_cases hr : s.isRunning
    · simp only [hr, if_true]
      exact inv_callFunc cfg _ hlog rfl hc
    · simp only [hr, Bool.false_eq_true, if_false]
      exact ⟨hlog, Or.inl rfl⟩
  · obtain ⟨hl1, htx, hl2⟩ := singleton_decomp (ht.symm.trans hts)
    subst hl1; subst hl2; subst htx
    show Inv (fire cfg { s with tasks := [] } (Task.settleWork st))
    match st with
    | .resolve v => exact inv_interpretWork cfg v _ hlog rfl hc
    | .reject e => exact inv_handleError cfg e _ hlog rfl hc
  · obtain ⟨hl1, htx, hl2⟩ := singleton_decomp (ht.symm.trans hts)
    subst hl1; subst hl2; subst htx
    show Inv (fire cfg { s with tasks := [] } (Task.settleHandler st))
    match st with
    | .resolve v => exact inv_interpretHandler cfg v _ hlog rfl hc
    | .reject e => exact inv_stopOrRecord _ hlog rfl

lemma inv_startedState (cfg : Config σ) (u : σ) : Inv (startedState cfg u) := by
  refine ⟨by simp [startedState, initSys, enqueue], Or.inr (Or.inl ⟨delayAt cfg 1, ?_, ?_⟩)⟩
  · simp [startedState, initSys, enqueue]
  · simp [startedState, initSys, enqueue]

lemma inv_reach (cfg : Config σ) (u : σ) (s : Sys σ) (h : Reach cfg u s) : Inv s := by
  induction h with
  | refl => exact inv_startedState cfg u
  | tail _ hstep ih => exact inv_step cfg ih hstep

lemma runFuel_nil (cfg : Config σ) (n : Nat) (s : Sys σ) (h : s.tasks = []) :
    runFuel cfg n s = s := by
  cases n with
  | zero => rfl
  | succ n => simp only [runFuel, h]

lemma runFuel_add (cfg : Config σ) (a b : Nat) (s : Sys σ) :
    runFuel cfg (a + b) s = runFuel cfg b (runFuel cfg a s) := by
  induction a generalizing s with
  | zero => rw [Nat.zero_add]; rfl
  | succ a ih =>
      rw [Nat.succ_add]
      cases hts : s.tasks with
      | nil => simp [runFuel_nil, hts]
      | cons t rest =>
          simp only [runFuel, hts]
          exact ih _

/-- C1: at any reachable point of a run there is at most one outstanding host
continuation — in particular a timer for the next tick and a pending work
promise never coexist, so the next tick is armed only after the in-flight
invocation's promise has settled and its result has been interpreted — and the
invocation log is exactly `1, 2, ..., k`: invocations of the work function are
serialized, with strictly increasing counters, no overlap and no
reordering. -/
theorem serializedTicks (cfg : Config σ) (u : σ) (s : Sys σ) (h : Reach cfg u s) :
    s.tasks.length ≤ 1 ∧
    s.invocations = List.range' 1 s.invocations.length ∧
    ∀ d st, Task.timer d ∈ s.tasks → Task.settleWork st ∈ s.tasks → False := by
  obtain ⟨hlog, hcase⟩ := inv_reach cfg u s h
  refine ⟨?_, hlog, ?_⟩
  · rcases hcase with h0 | ⟨d, h0, _⟩ | ⟨st, h0, _⟩ | ⟨st, h0, _⟩ <;> simp [h0]
  · intro d st hd hw
    rcases hcase with h0 | ⟨d', h0, _⟩ | ⟨st', h0, _⟩ | ⟨st', h0, _⟩ <;>
      rw [h0] at hd hw <;> simp at hd hw

theorem serializedTicks_witness :
    (startedState demoCfg ()).tasks.length ≤ 1 ∧
    (startedState demoCfg ()).invocations =
      List.range' 1 (startedState demoCfg ()).invocations.length ∧
    ∀ d st, Task.timer d ∈ (startedState demoCfg ()).tasks →
      Task.settleWork st ∈ (startedState demoCfg ()).tasks → False :=
  serializedTicks demoCfg () (startedState demoCfg ()) Relation.ReflTransGen.refl

/-- C3: `stop()` on a running engine flips the running flag to false, and a
previously armed timer that fires after that is a no-op: the liveness check at
the head of `__call` (src/interval.ts lines 148-151) keeps it from invoking
the work function or scheduling anything — the state is returned unchanged. -/
theorem stopMakesPendingTickInert :
    (∀ (σ : Type) (s : Sys σ), s.isRunning = true →
        stopFn s = .ok { s with isRunning := false }) ∧
    (∀ (σ : Type) (cfg : Config σ) (s : Sys σ) (d : Nat), s.isRunning = false →
        fire cfg s (.timer d) = s) := by
  constructor
  · intro σ s h
    simp [stopFn, h]
  · intro σ cfg s d h
    simp [fire, h]

theorem stopMakesPendingTickInert_witness :
    stopFn (startedState demoCfg ()) =
      .ok { startedState demoCfg () with isRunning := false } ∧
    fire demoCfg { startedState demoCfg () with isRunning := false } (.timer 5) =
      { startedState demoCfg () with isRunning := false } :=
  ⟨stopMakesPendingTickInert.1 Unit (startedState demoCfg ()) rfl,
   stopMakesPendingTickInert.2 Unit demoCfg
     { startedState demoCfg () with isRunning := false } 5 rfl⟩

/-- C6: the delay before an invocation is 0 exactly when the start mode is
Immediate and the counter is 1, and otherwise is the duration policy evaluated
at the current counter (the fixed number for a numeric policy); `start()`
resets the counter to 0 before enqueueing; `__enqueue` increments the counter
by exactly 1 and arms the tick for the incremented counter, so within one
start/stop cycle the work function receives counters 1, 2, 3, .... -/
theorem delayAndCounterPolicy :
    (∀ (σ : Type) (cfg : Config σ) (c : Nat), 1 ≤ c →
        delayAt cfg c =
          if cfg.startMode = StartMode.immediate ∧ c = 1 then 0
          else evalDuration cfg.time c) ∧
    (∀ (n c : Nat), evalDuration (.fixed n) c = n) ∧
    (∀ (σ : Type) (cfg : Config σ) (s : Sys σ), s.isRunning = true →
        enqueue cfg s = { s with counter := s.counter + 1,
                                 tasks := s.tasks ++ [Task.timer (delayAt cfg (s.counter + 1))] }) ∧
    (∀ (σ : Type) (cfg : Config σ) (s : Sys σ), s.isRunning = false →
        startFn cfg s = .ok (enqueue cfg { s with counter := 0, isRunning := true })) ∧
    (∀ (σ : Type) (cfg : Config σ) (u : σ) (s : Sys σ), Reach cfg u s →
        s.invocations = List.range' 1 s.invocations.length) := by
  refine ⟨?_, fun n c => rfl, ?_, ?_, ?_⟩
  · intro σ cfg c hc
    unfold delayAt
    cases hsm : cfg.startMode with
    | immediate =>
        by_cases h1 : c = 1
        · simp [h1]
        · have h2 : c > 1 := by omega
          simp [h1, h2]
    | delayed => simp
  · intro σ cfg s h
    simp [enqueue, h]
  · intro σ cfg s h
    simp [startFn, h]
  · intro σ cfg u s h
    exact (inv_reach cfg u s h).1

theorem delayAndCounterPolicy_witness :
    (delayAt demoCfg 1 =
      if demoCfg.startMode = StartMode.immediate ∧ 1 = 1 then 0
      else evalDuration demoCfg.time 1) ∧
    (enqueue demoCfg (startedState demoCfg ()) =
      { startedState demoCfg () with counter := (startedState demoCfg ()).counter + 1,
                                     tasks := (startedState demoCfg ()).tasks ++
                                       [Task.timer (delayAt demoCfg ((startedState demoCfg ()).counter + 1))] }) ∧
    (startFn demoCfg (initSys ()) =
      .ok (enqueue demoCfg { initSys () with counter := 0, isRunning := true })) ∧
    (startedState demoCfg ()).invocations =
      List.range' 1 (startedState demoCfg ()).invocations.length :=
  ⟨delayAndCounterPolicy.1 Unit demoCfg 1 (by decide),
   delayAndCounterPolicy.2.2.1 Unit demoCfg (startedState demoCfg ()) rfl,
   delayAndCounterPolicy.2.2.2.1 Unit demoCfg (initSys ()) rfl,
   delayAndCounterPolicy.2.2.2.2 Unit demoCfg () (startedState demoCfg ())
     Relation.ReflTransGen.refl⟩

lemma boolCfg_started (N : Nat) (t : Duration) (sm : StartMode) :
    startedState (boolCfg N t sm) () = syncState N t sm 0 := rfl

lemma syncState_fire (N k : Nat) (t : Duration) (sm : StartMode) (h : k + 1 ≠ N) :
    runFuel (boolCfg N t sm) 1 (syncState N t sm k) = syncState N t sm (k + 1) := by
  simp [runFuel, syncState, fire, callFunc, boolCfg, boolFunc, h,
        interpretWorkResult, enqueue, range'_snoc]

lemma syncState_fire_last (N k : Nat) (t : Duration) (sm : StartMode) (h : k + 1 = N) :
    runFuel (boolCfg N t sm) 1 (syncState N t sm k) = syncFinal N := by
  subst h
  simp [runFuel, syncState, syncFinal, fire, callFunc, boolCfg, boolFunc,
        interpretWorkResult, stopFn, range'_snoc]

lemma syncRun (N : Nat) (t : Duration) (sm : StartMode) :
    ∀ (j k : Nat), k + j = N → 1 ≤ j →
      runFuel (boolCfg N t sm) j (syncState N t sm k) = syncFinal N := by
  intro j
  induction j with
  | zero => intro k h h1; omega
  | succ j ih =>
      intro k h h1
      by_cases hj : j = 0
      · subst hj
        exact syncState_fire_last N k t sm (by omega)
      · rw [show j + 1 = 1 + j by omega, runFuel_add,
            syncState_fire N k t sm (by omega)]
        exact ih (k + 1) (by omega) (by omega)

/-- C2: a successful work result equal to the literal `false` auto-stops the
engine (running flag cleared, nothing armed), while any other value re-arms
the next tick; consequently, for work returning `false` on its Nth invocation
and `true` otherwise, with no error handler, exactly N invocations occur
(counters `1..N`) and the engine is stopped immediately after the Nth. -/
theorem autoStopOnFalse :
    (∀ (σ : Type) (cfg : Config σ) (s : Sys σ), s.isRunning = true →
        interpretWorkResult cfg (JsVal.bool false) s = { s with isRunning := false }) ∧
    (∀ (σ : Type) (cfg : Config σ) (s : Sys σ) (v : JsVal),
        s.isRunning = true → v ≠ JsVal.bool false →
        interpretWorkResult cfg v s =
          { s with counter := s.counter + 1,
                   tasks := s.tasks ++ [Task.timer (delayAt cfg (s.counter + 1))] }) ∧
    (∀ (N : Nat) (t : Duration) (sm : StartMode), 1 ≤ N →
        runFuel (boolCfg N t sm) N (startedState (boolCfg N t sm) ()) = syncFinal N) ∧
    (∀ N : Nat, (syncFinal N).isRunning = false ∧
        (syncFinal N).invocations = List.range' 1 N ∧
        (syncFinal N).invocations.length = N) := by
  refine ⟨?_, ?_, ?_, ?_⟩
  · intro σ cfg s h
    simp [interpretWorkResult, stopFn, h]
  · intro σ cfg s v h hv
    simp [interpretWorkResult, hv, enqueue, h]
  · intro N t sm hN
    rw [boolCfg_started]
    exact syncRun N t sm N 0 (by omega) hN
  · intro N
    exact ⟨rfl, rfl, by simp [syncFinal]⟩

theorem autoStopOnFalse_witness :
    interpretWorkResult demoCfg (JsVal.bool false) (startedState demoCfg ()) =
      { startedState demoCfg () with isRunning := false } ∧
    interpretWorkResult demoCfg JsVal.undef (startedState demoCfg ()) =
      { startedState demoCfg () with
          counter := (startedState demoCfg ()).counter + 1,
          tasks := (startedState demoCfg ()).tasks ++
            [Task.timer (delayAt demoCfg ((startedState demoCfg ()).counter + 1))] } ∧
    runFuel (boolCfg 3 (.fixed 10) .delayed) 3
      (startedState (boolCfg 3 (.fixed 10) .delayed) ()) = syncFinal 3 :=
  ⟨autoStopOnFalse.1 Unit demoCfg (startedState demoCfg ()) rfl,
   autoStopOnFalse.2.1 Unit demoCfg (startedState demoCfg ()) JsVal.undef rfl (by decide),
   autoStopOnFalse.2.2.1 3 (.fixed 10) .delayed (by decide)⟩

/-- C4 counterexample: with no error handler and work that throws on its first
invocation, one invocation occurs and the engine stops — but the error is not
propagated anywhere: `__handleError` merely calls `stop()` and returns
(src/interval.ts lines 196-200), so the unhandled-error channel stays empty,
refuting the claim that the error surfaces as an unhandled failure at the
tick's call site. -/
theorem noHandlerSwallows_counterexample :
    (runFuel throwCfg 1 (startedState throwCfg ())).invocations = [1] ∧
    (runFuel throwCfg 1 (startedState throwCfg ())).isRunning = false ∧
    (runFuel throwCfg 1 (startedState throwCfg ())).unhandled = [] :=
  ⟨rfl, rfl, rfl⟩

/-- C4 amended: for a running engine with no error handler whose work throws
synchronously (or returns a rejecting promise) on invocation 1, exactly one
invocation occurs, the engine is stopped immediately after, and the error is
swallowed: the unhandled channel stays empty and no task remains. -/
theorem noHandlerStopsAndSwallows :
    (∀ (σ : Type) (cfg : Config σ) (u0 u1 : σ) (e : String),
        cfg.onError = none → cfg.func 1 u0 = .thrown e u1 →
        runFuel cfg 1 (startedState cfg u0) =
          { counter := 1, isRunning := false, tasks := [], user := u1,
            invocations := [1], unhandled := [] }) ∧
    (∀ (σ : Type) (cfg : Config σ) (u0 u1 : σ) (e : String),
        cfg.onError = none → cfg.func 1 u0 = .promise (.reject e) u1 →
        runFuel cfg 2 (startedState cfg u0) =
          { counter := 1, isRunning := false, tasks := [], user := u1,
            invocations := [1], unhandled := [] }) := by
  constructor
  · intro σ cfg u0 u1 e hoe hf
    simp [runFuel, startedState, initSys, enqueue, fire, callFunc, hf,
          handleError, hoe, stopFn, stopOrRecord]
  · intro σ cfg u0 u1 e hoe hf
    simp [runFuel, startedState, initSys, enqueue, fire, callFunc, hf,
          handleError, hoe, stopFn, stopOrRecord, interpretWorkResult]

theorem noHandlerStopsAndSwallows_witness :
    runFuel throwCfg 1 (startedState throwCfg ()) =
      { counter := 1, isRunning := false, tasks := [], user := (),
        invocations := [1], unhandled := [] } ∧
    runFuel rejectCfg 2 (startedState rejectCfg ()) =
      { counter := 1, isRunning := false, tasks := [], user := (),
        invocations := [1], unhandled := [] } :=
  ⟨noHandlerStopsAndSwallows.1 Unit throwCfg () () "boom" rfl rfl,
   noHandlerStopsAndSwallows.2 Unit rejectCfg () () "boom" rfl rfl⟩

/-- C5: evaluation of the code at the failing input.  First scenario: work
throws and the synchronous error handler itself throws — the engine is left
running with nothing scheduled (a stalled schedule) while the handler's error
escapes unhandled; the code does not stop the engine, contradicting the claim
and the README ("If error handler itself throws, the interval stops").
Second scenario: an asynchronous handler whose promise rejects — there the
engine does stop, but the handler's error is swallowed by the `.catch`
callback (src/interval.ts lines 222-226) instead of propagating. -/
theorem handlerFailureDiverges :
    ((runFuel handlerThrowCfg 1 (startedState handlerThrowCfg ())).isRunning = true ∧
     (runFuel handlerThrowCfg 1 (startedState handlerThrowCfg ())).tasks = [] ∧
     (runFuel handlerThrowCfg 1 (startedState handlerThrowCfg ())).unhandled =
       ["handler boom"]) ∧
    ((runFuel handlerRejectCfg 2 (startedState handlerRejectCfg ())).isRunning = false ∧
     (runFuel handlerRejectCfg 2 (startedState handlerRejectCfg ())).unhandled = []) :=
  ⟨⟨rfl, rfl, rfl⟩, rfl, rfl⟩

lemma sortSteps_perm (l : List StepEntry) : (sortSteps l).Perm l :=
  List.mergeSort_perm l _

lemma sortSteps_sorted (l : List StepEntry) :
    List.Pairwise (fun a b => b.threshold ≤ a.threshold) (sortSteps l) := by
  have h := @List.sorted_mergeSort StepEntry
    (fun a b : StepEntry => decide (b.threshold ≤ a.threshold))
    (fun a b c hab hbc => by
      simp only [decide_eq_true_eq] at hab hbc ⊢
      omega)
    (fun a b => by
      simp only [Bool.or_eq_true, decide_eq_true_eq]
      omega) l
  exact h.imp (fun hab => by simpa using hab)

lemma find?_max_threshold (counter : Nat) :
    ∀ (l : List StepEntry), List.Pairwise (fun a b => b.threshold ≤ a.threshold) l →
      ∀ st, l.find? (fun e => decide (e.threshold ≤ counter)) = some st →
        ∀ q ∈ l, q.threshold ≤ counter → q.threshold ≤ st.threshold := by
  intro l
  induction l with
  | nil => intro _ st h; simp at h
  | cons a as ih =>
      intro hp st hfind q hq hqc
      obtain ⟨hhead, htail⟩ := List.pairwise_cons.mp hp
      rw [List.find?_cons] at hfind
      by_cases ha : a.threshold ≤ counter
      · simp [ha] at hfind
        subst hfind
        rcases List.mem_cons.mp hq with hqa | hqas
        · subst hqa; exact Nat.le_refl _
        · exact hhead q hqas
      · simp [ha] at hfind
        rcases List.mem_cons.mp hq with hqa | hqas
        · subst hqa; omega
        · exact ih htail st hfind q hqas hqc

unseal List.merge List.mergeSort in
lemma steps_example_vals :
    steps [⟨0, 100⟩, ⟨5, 500⟩, ⟨10, 1000⟩] 0 = 100 ∧
    steps [⟨0, 100⟩, ⟨5, 500⟩, ⟨10, 1000⟩] 4 = 100 ∧
    steps [⟨0, 100⟩, ⟨5, 500⟩, ⟨10, 1000⟩] 5 = 500 ∧
    steps [⟨0, 100⟩, ⟨5, 500⟩, ⟨10, 1000⟩] 9 = 500 ∧
    steps [⟨0, 100⟩, ⟨5, 500⟩, ⟨10, 1000⟩] 10 = 1000 ∧
    steps [⟨0, 100⟩, ⟨5, 500⟩, ⟨10, 1000⟩] 20 = 1000 :=
  ⟨rfl, rfl, rfl, rfl, rfl, rfl⟩

/-- C7: for a non-empty list of threshold entries, in any order, `steps`
returns the duration of an entry carrying the greatest threshold that is ≤ the
counter; when the counter is below every threshold it falls back to the
first-listed entry's duration (insertion order, not the lowest threshold).
The concrete example of the spec evaluates as claimed. -/
theorem stepsGreatestThreshold :
    (∀ (l : List StepEntry) (counter : Nat) (hne : l ≠ []),
        ((∃ p ∈ l, p.threshold ≤ counter) →
          ∃ p ∈ l, steps l counter = p.duration ∧ p.threshold ≤ counter ∧
            ∀ q ∈ l, q.threshold ≤ counter → q.threshold ≤ p.threshold) ∧
        ((∀ p ∈ l, counter < p.threshold) →
          steps l counter = (l.head hne).duration)) ∧
    (steps [⟨0, 100⟩, ⟨5, 500⟩, ⟨10, 1000⟩] 0 = 100 ∧
     steps [⟨0, 100⟩, ⟨5, 500⟩, ⟨10, 1000⟩] 4 = 100 ∧
     steps [⟨0, 100⟩, ⟨5, 500⟩, ⟨10, 1000⟩] 5 = 500 ∧
     steps [⟨0, 100⟩, ⟨5, 500⟩, ⟨10, 1000⟩] 9 = 500 ∧
     steps [⟨0, 100⟩, ⟨5, 500⟩, ⟨10, 1000⟩] 10 = 1000 ∧
     steps [⟨0, 100⟩, ⟨5, 500⟩, ⟨10, 1000⟩] 20 = 1000) := by
  refine ⟨?_, steps_example_vals⟩
  intro l counter hne
  have hperm := sortSteps_perm l
  constructor
  · rintro ⟨p, hpl, hpc⟩
    have hmem : p ∈ sortSteps l := hperm.mem_iff.mpr hpl
    have hsome : ((sortSteps l).find? (fun e => decide (e.threshold ≤ counter))).isSome := by
      rw [List.find?_isSome]
      exact ⟨p, hmem, by simpa using hpc⟩
    obtain ⟨st, hfind⟩ := Option.isSome_iff_exists.mp hsome
    refine ⟨st, ?_, ?_, ?_, ?_⟩
    · exact hperm.mem_iff.mp (List.mem_of_find?_eq_some hfind)
    · simp [steps, hfind]
    · simpa using List.find?_some hfind
    · intro q hql hqc
      exact find?_max_threshold counter (sortSteps l) (sortSteps_sorted l) st hfind
        q (hperm.mem_iff.mpr hql) hqc
  · intro hall
    have hnone : (sortSteps l).find? (fun e => decide (e.threshold ≤ counter)) = none := by
      rw [List.find?_eq_none]
      intro x hx
      have hxl := hall x (hperm.mem_iff.mp hx)
      simp only [decide_eq_true_eq]
      omega
    cases l with
    | nil => exact absurd rfl hne
    | cons a as => simp [steps, hnone]

theorem stepsGreatestThreshold_witness :
    ([⟨0, 100⟩, ⟨5, 500⟩, ⟨10, 1000⟩] : List StepEntry) ≠ [] ∧
    (∃ p ∈ ([⟨0, 100⟩, ⟨5, 500⟩, ⟨10, 1000⟩] : List StepEntry), p.threshold ≤ 7) ∧
    (∃ p ∈ ([⟨0, 100⟩, ⟨5, 500⟩, ⟨10, 1000⟩] : List StepEntry),
      steps [⟨0, 100⟩, ⟨5, 500⟩, ⟨10, 1000⟩] 7 = p.duration ∧ p.threshold ≤ 7 ∧
        ∀ q ∈ ([⟨0, 100⟩, ⟨5, 500⟩, ⟨10, 1000⟩] : List StepEntry),
          q.threshold ≤ 7 → q.threshold ≤ p.threshold) :=
  ⟨by decide, by decide,
   (stepsGreatestThreshold.1 [⟨0, 100⟩, ⟨5, 500⟩, ⟨10, 1000⟩] 7 (by decide)).1 (by decide)⟩

lemma retry_started {T : Type} (pred : Nat → Option T) (attempts : Nat)
    (time : Duration) (sm : StartMode) :
    startedState (retryCfg pred attempts time sm) { calls := [], result := none } =
      retrySt pred attempts time sm 0 := rfl

lemma retry_tick {T : Type} (pred : Nat → Option T) (attempts : Nat) (time : Duration)
    (sm : StartMode) (k : Nat) (hk : k + 1 ≤ attempts) (hnone : pred (k + 1) = none) :
    runFuel (retryCfg pred attempts time sm) 2 (retrySt pred attempts time sm k) =
      retrySt pred attempts time sm (k + 1) := by
  have hgt : ¬ (k + 1 > attempts) := by omega
  simp [runFuel, retrySt, fire, callFunc, retryCfg, retryFunc, hgt, hnone,
        interpretWorkResult, enqueue, range'_snoc]

lemma retry_fail_last {T : Type} (pred : Nat → Option T) (attempts : Nat)
    (time : Duration) (sm : StartMode) :
    runFuel (retryCfg pred attempts time sm) 2 (retrySt pred attempts time sm attempts) =
      retryFailFinal T attempts := by
  have hgt : attempts + 1 > attempts := by omega
  simp [runFuel, retrySt, retryFailFinal, fire, callFunc, retryCfg, retryFunc, hgt,
        handleError, settleOnce, stopOrRecord, stopFn, range'_snoc]

lemma retry_succ_last {T : Type} (pred : Nat → Option T) (attempts : Nat)
    (time : Duration) (sm : StartMode) (k : Nat) (v : T)
    (hk : k + 1 ≤ attempts) (hsome : pred (k + 1) = some v) :
    runFuel (retryCfg pred attempts time sm) 2 (retrySt pred attempts time sm k) =
      retrySuccFinal (k + 1) v := by
  have hgt : ¬ (k + 1 > attempts) := by omega
  simp [runFuel, retrySt, retrySuccFinal, fire, callFunc, retryCfg, retryFunc, hgt, hsome,
        interpretWorkResult, settleOnce, stopFn, range'_snoc]

lemma retry_run_continue {T : Type} (pred : Nat → Option T) (attempts : Nat)
    (time : Duration) (sm : StartMode) :
    ∀ (j k : Nat), k + j ≤ attempts → (∀ c, k < c → c ≤ k + j → pred c = none) →
      runFuel (retryCfg pred attempts time sm) (2 * j) (retrySt pred attempts time sm k) =
        retrySt pred attempts time sm (k + j) := by
  intro j
  induction j with
  | zero => intro k _ _; rfl
  | succ j ih =>
      intro k h hp
      rw [show 2 * (j + 1) = 2 + 2 * j by ring, runFuel_add,
          retry_tick pred attempts time sm k (by omega) (hp (k + 1) (by omega) (by omega)),
          show k + (j + 1) = (k + 1) + j by omega]
      exact ih (k + 1) (by omega) (fun c hc1 hc2 => hp c (by omega) (by omega))

/-- C8: with a predicate that never produces a defined value and a positive
attempt bound, `retry` invokes the predicate exactly `attempts` times, with
counters `1..attempts`, and then rejects the outer promise with an error
bearing exactly the message `Attempt limit exceeded`; if instead the predicate
first produces a defined value `v` at some counter ≤ attempts, the outer
promise resolves with `v`. -/
theorem retrySpec :
    (∀ (T : Type) (pred : Nat → Option T) (attempts : Nat) (time : Duration)
        (sm : StartMode), 1 ≤ attempts → (∀ c, pred c = none) →
        runFuel (retryCfg pred attempts time sm) (2 * attempts + 2)
          (startedState (retryCfg pred attempts time sm) { calls := [], result := none }) =
          retryFailFinal T attempts) ∧
    (∀ (T : Type) (attempts : Nat),
        (retryFailFinal T attempts).user.calls = List.range' 1 attempts ∧
        (retryFailFinal T attempts).user.result =
          some (.error "Attempt limit exceeded") ∧
        (retryFailFinal T attempts).isRunning = false) ∧
    (∀ (T : Type) (pred : Nat → Option T) (attempts k : Nat) (v : T) (time : Duration)
        (sm : StartMode), k + 1 ≤ attempts →
        (∀ c, 1 ≤ c → c ≤ k → pred c = none) → pred (k + 1) = some v →
        runFuel (retryCfg pred attempts time sm) (2 * k + 2)
          (startedState (retryCfg pred attempts time sm) { calls := [], result := none }) =
          retrySuccFinal (k + 1) v) ∧
    (∀ (T : Type) (m : Nat) (v : T),
        (retrySuccFinal m v).user.calls = List.range' 1 m ∧
        (retrySuccFinal m v).user.result = some (.ok v) ∧
        (retrySuccFinal m v).isRunning = false) := by
  refine ⟨?_, fun T attempts => ⟨rfl, rfl, rfl⟩, ?_, fun T m v => ⟨rfl, rfl, rfl⟩⟩
  · intro T pred attempts time sm hA hpred
    rw [retry_started, runFuel_add,
        retry_run_continue pred attempts time sm attempts 0 (by omega)
          (fun c _ _ => hpred c)]
    simp only [Nat.zero_add]
    exact retry_fail_last pred attempts time sm
  · intro T pred attempts k v time sm hk hnone hsome
    rw [retry_started, runFuel_add,
        retry_run_continue pred attempts time sm k 0 (by omega)
          (fun c hc1 hc2 => hnone c (by omega) (by omega))]
    simp only [Nat.zero_add]
    exact retry_succ_last pred attempts time sm k v hk hsome

theorem retrySpec_witness :
    runFuel (retryCfg (fun _ => (none : Option Nat)) 2 (.fixed 5) .immediate) (2 * 2 + 2)
      (startedState (retryCfg (fun _ => (none : Option Nat)) 2 (.fixed 5) .immediate)
        { calls := [], result := none }) = retryFailFinal Nat 2 ∧
    runFuel (retryCfg (fun c => if c = 2 then (some 42 : Option Nat) else none) 3
        (.fixed 5) .immediate) (2 * 1 + 2)
      (startedState (retryCfg (fun c => if c = 2 then (some 42 : Option Nat) else none) 3
        (.fixed 5) .immediate) { calls := [], result := none }) = retrySuccFinal (1 + 1) 42 :=
  ⟨retrySpec.1 Nat (fun _ => none) 2 (.fixed 5) .immediate (by decide) (fun _ => rfl),
   retrySpec.2.2.1 Nat (fun c => if c = 2 then some 42 else none) 3 1 42 (.fixed 5)
     .immediate (by decide)
     (fun c h1 h2 => by
       have hc : c = 1 := by omega
       subst hc
       rfl)
     rfl⟩

lemma pipe_started (α : Type) (time : Duration) (sm : StartMode)
    (preds : List (α → α)) (undef : α) :
    startedState (pipeCfg α time sm)
        { steps := preds, data := undef, applied := 0, result := none } =
      pipeState α time sm preds 0 undef := rfl

lemma pipe_tick_cons (α : Type) (time : Duration) (sm : StartMode) (f : α → α)
    (rest : List (α → α)) (k : Nat) (d0 : α) :
    runFuel (pipeCfg α time sm) 2 (pipeState α time sm (f :: rest) k d0) =
      pipeState α time sm rest (k + 1) (f d0) := by
  simp [runFuel, pipeState, fire, callFunc, pipeCfg, pipeFunc,
        interpretWorkResult, enqueue, range'_snoc]

lemma pipe_tick_nil (α : Type) (time : Duration) (sm : StartMode) (k : Nat) (d0 : α) :
    runFuel (pipeCfg α time sm) 2 (pipeState α time sm [] k d0) = pipeFinal α k d0 := by
  simp [runFuel, pipeState, pipeFinal, fire, callFunc, pipeCfg, pipeFunc, settleOnce,
        interpretWorkResult, stopFn, range'_snoc]

lemma pipe_run (α : Type) (time : Duration) (sm : StartMode) :
    ∀ (rem : List (α → α)) (k : Nat) (d0 : α),
      runFuel (pipeCfg α time sm) (2 * rem.length + 2) (pipeState α time sm rem k d0) =
        pipeFinal α (k + rem.length) (rem.foldl (fun d f => f d) d0) := by
  intro rem
  induction rem with
  | nil => intro k d0; exact pipe_tick_nil α time sm k d0
  | cons f rest ih =>
      intro k d0
      rw [show 2 * (f :: rest).length + 2 = 2 + (2 * rest.length + 2) by
            simp [List.length_cons]; ring,
          runFuel_add, pipe_tick_cons, ih (k + 1) (f d0),
          show (f :: rest).foldl (fun d f => f d) d0 =
            rest.foldl (fun d f => f d) (f d0) from rfl,
          show k + (f :: rest).length = (k + 1) + rest.length by simp; omega]

/-- C9 counterexample: called with a non-array argument, `pipeline` throws a
`TypeError` synchronously — the call's outcome is the outer `Except.error`, so
no promise is ever returned, and in particular no returned promise is
rejected, contrary to the claim's "rejects with a type error". -/
theorem pipelineNonArray_counterexample :
    pipeline Nat 0 (.notArr "object") (.fixed 5) .immediate =
      .error "TypeError: Expected \"predicates\" to by an array, but got object" := rfl

/-- C9 amended: `pipeline` invokes each step with the previous step's output
(the first step receives the initial `undefined` value) and resolves the outer
promise with the fold of all steps, applying exactly `length` steps; the empty
list resolves immediately with `undefined` and zero steps executed; a
non-array argument makes the call throw a `TypeError` synchronously instead of
returning a rejected promise. -/
theorem pipelineSpec :
    (∀ (α : Type) (undef : α) (l : List (α → α)) (time : Duration) (sm : StartMode),
        pipeline α undef (.arr l) time sm =
          .ok { result := some (.ok (l.foldl (fun d f => f d) undef)),
                applied := l.length }) ∧
    (∀ (α : Type) (undef : α) (time : Duration) (sm : StartMode),
        pipeline α undef (.arr []) time sm =
          .ok { result := some (.ok undef), applied := 0 }) ∧
    (∀ (α : Type) (undef : α) (ty : String) (time : Duration) (sm : StartMode),
        pipeline α undef (.notArr ty) time sm =
          .error ("TypeError: Expected \"predicates\" to by an array, but got " ++ ty)) := by
  refine ⟨?_, fun α undef time sm => rfl, fun α undef ty time sm => rfl⟩
  intro α undef l time sm
  cases l with
  | nil => rfl
  | cons f rest =>
      simp only [pipeline]
      rw [pipe_started α time sm (f :: rest) undef,
          pipe_run α time sm (f :: rest) 0 undef]
      simp [pipeFinal]

/-- C10: when the start-mode argument is omitted, the bare `Interval`
constructor resolves it to `delayed` (`params.start || 'delayed'`), while
every combinator helper (`poll`, `until`, `times`, `retry`, `pipeline`)
declares the default parameter `'immediate'` and builds its engine with it —
the two public surfaces have opposite defaults. -/
theorem oppositeStartModeDefaults :
    mkStartMode none = StartMode.delayed ∧
    (∀ sm, mkStartMode (some sm) = sm) ∧
    (∀ (pred : Nat → Bool) (time : Duration),
        (pollCfg pred time).startMode = StartMode.immediate) ∧
    (∀ (T : Type) (pred : Nat → Option T) (time : Duration),
        (untilCfg pred time).startMode = StartMode.immediate) ∧
    (∀ (amount : Nat) (time : Duration),
        (timesCfg amount time).startMode = StartMode.immediate) ∧
    (∀ (T : Type) (pred : Nat → Option T) (attempts : Nat) (time : Duration),
        (retryCfg pred attempts time).startMode = StartMode.immediate) ∧
    (∀ (α : Type) (time : Duration),
        (pipeCfg α time).startMode = StartMode.immediate) ∧
    StartMode.delayed ≠ StartMode.immediate :=
  ⟨rfl, fun _ => rfl, fun _ _ => rfl, fun _ _ _ => rfl, fun _ _ => rfl,
   fun _ _ _ _ => rfl, fun _ _ => rfl, by decide⟩

end Pinterval
